import Mathlib

set_option maxHeartbeats 1000000

/-!
Verification of the LDAP resource reconciliation core
(`resource_ldap_object.go`, map-shaped and set-shaped variants).

The embedding models:
* `maybeJSONStringToArray` (the spec's `parseValue`), including the behaviour
  of Go's `encoding/json` when unmarshalling into `[]string` and marshalling a
  `[]string` (the external standard-library collaborator the source calls);
* the attribute projection performed by `readLDAPObject` in both variants;
* `computeAndAddDeltas` in both variants;
* the error-handling skeleton of read / update / delete.
-/

/-- Whitespace recognised by Go's `strings.TrimSpace` (`unicode.IsSpace`:
the White_Space property). -/
def goIsSpace (c : Char) : Bool :=
  c == ' ' || c == '\t' || c == '\n' || c == '\r' ||
  c.toNat == 11 || c.toNat == 12 ||
  c.toNat == 0x85 || c.toNat == 0xA0 || c.toNat == 0x1680 ||
  (decide (0x2000 ≤ c.toNat) && decide (c.toNat ≤ 0x200A)) ||
  c.toNat == 0x2028 || c.toNat == 0x2029 || c.toNat == 0x202F ||
  c.toNat == 0x205F || c.toNat == 0x3000

/-- Whitespace accepted between tokens by the `encoding/json` scanner. -/
def isJSONSpace (c : Char) : Bool :=
  c == ' ' || c == '\t' || c == '\n' || c == '\r'

/-- Skip inter-token whitespace, as the `encoding/json` scanner does. -/
def skipWS (l : List Char) : List Char := l.dropWhile isJSONSpace

/-- Hexadecimal digit value, as `encoding/json`'s `getu4` accepts
(`0-9`, `a-f`, `A-F`). -/
def hexDigitValue (c : Char) : Option Nat :=
  if '0' ≤ c ∧ c ≤ '9' then some (c.toNat - '0'.toNat)
  else if 'a' ≤ c ∧ c ≤ 'f' then some (c.toNat - 'a'.toNat + 10)
  else if 'A' ≤ c ∧ c ≤ 'F' then some (c.toNat - 'A'.toNat + 10)
  else none

/-- Decode the four hex digits of a `\uXXXX` escape (`getu4`). -/
def decodeU (h1 h2 h3 h4 : Char) : Option Nat :=
  match hexDigitValue h1, hexDigitValue h2, hexDigitValue h3, hexDigitValue h4 with
  | some a, some b, some c, some d => some (((a * 16 + b) * 16 + c) * 16 + d)
  | _, _, _, _ => none

/-- The single-character escapes accepted inside a JSON string literal. -/
def simpleEscape (e : Char) : Option Char :=
  if e = '"' then some '"'
  else if e = '\\' then some '\\'
  else if e = '/' then some '/'
  else if e = 'b' then some (Char.ofNat 8)
  else if e = 'f' then some (Char.ofNat 12)
  else if e = 'n' then some '\n'
  else if e = 'r' then some '\r'
  else if e = 't' then some '\t'
  else none

/-- Parse the body of a JSON string literal (the opening quote already
consumed), returning the decoded characters and the input following the
closing quote.  Mirrors `encoding/json`: unescaped control characters are
rejected, `\uXXXX` escapes combine valid surrogate pairs, and a lone
surrogate half decodes to U+FFFD.  The `Nat` argument is recursion fuel;
one unit is spent per decoded character, so `length + 1` always suffices. -/
def parseJStrAux : Nat → List Char → Option (List Char × List Char)
  | 0, _ => none
  | fuel + 1, l =>
    match l with
    | [] => none
    | c :: rest =>
      if c = '"' then some ([], rest)
      else if c = '\\' then
        match rest with
        | 'u' :: h1 :: h2 :: h3 :: h4 :: rest3 =>
          match decodeU h1 h2 h3 h4 with
          | none => none
          | some n =>
            if 0xD800 ≤ n ∧ n ≤ 0xDBFF then
              match rest3 with
              | '\\' :: 'u' :: k1 :: k2 :: k3 :: k4 :: rest4 =>
                match decodeU k1 k2 k3 k4 with
                | some m =>
                  if 0xDC00 ≤ m ∧ m ≤ 0xDFFF then
                    (parseJStrAux fuel rest4).map
                      (fun p => (Char.ofNat (0x10000 + (n - 0xD800) * 0x400 + (m - 0xDC00)) :: p.1, p.2))
                  else
                    (parseJStrAux fuel rest3).map (fun p => (Char.ofNat 0xFFFD :: p.1, p.2))
                | none =>
                  (parseJStrAux fuel rest3).map (fun p => (Char.ofNat 0xFFFD :: p.1, p.2))
              | _ =>
                (parseJStrAux fuel rest3).map (fun p => (Char.ofNat 0xFFFD :: p.1, p.2))
            else if 0xDC00 ≤ n ∧ n ≤ 0xDFFF then
              (parseJStrAux fuel rest3).map (fun p => (Char.ofNat 0xFFFD :: p.1, p.2))
            else
              (parseJStrAux fuel rest3).map (fun p => (Char.ofNat n :: p.1, p.2))
        | e :: rest2 =>
          match simpleEscape e with
          | some sc => (parseJStrAux fuel rest2).map (fun p => (sc :: p.1, p.2))
          | none => none
        | [] => none
      else if c.toNat < 0x20 then none
      else (parseJStrAux fuel rest).map (fun p => (c :: p.1, p.2))

/-- Parse one array element when unmarshalling into `[]string`: either a JSON
string, or the literal `null` (which Go leaves at the string zero value `""`
without reporting an error). -/
def parseJElem (l : List Char) : Option (List Char × List Char) :=
  match l with
  | 'n' :: 'u' :: 'l' :: 'l' :: rest => some ([], rest)
  | '"' :: rest => parseJStrAux (rest.length + 1) rest
  | _ => none

/-- Parse the comma-separated elements of a non-empty JSON array, positioned
at the first element, up to and including the closing bracket. -/
def parseJElemsAux : Nat → List Char → Option (List (List Char) × List Char)
  | 0, _ => none
  | fuel + 1, l =>
    match parseJElem l with
    | none => none
    | some (s, rest) =>
      match skipWS rest with
      | ',' :: rest2 => (parseJElemsAux fuel (skipWS rest2)).map (fun p => (s :: p.1, p.2))
      | ']' :: rest2 => some ([s], rest2)
      | _ => none

/-- Parse a JSON array of strings from the start of the input, returning the
elements and the remaining input. -/
def parseJSONStringArrayCore (l : List Char) : Option (List (List Char) × List Char) :=
  match skipWS l with
  | '[' :: rest =>
    match skipWS rest with
    | ']' :: rest2 => some ([], rest2)
    | rest2 => parseJElemsAux (rest2.length + 1) rest2
  | _ => none

/-- `json.Unmarshal(data, &ret)` for `ret : []string`: the whole input must be
a single JSON array of strings (modulo surrounding whitespace); anything else
is an error, modelled as `none`. -/
def jsonUnmarshalStringArray (s : String) : Option (List String) :=
  match parseJSONStringArrayCore s.data with
  | some (elems, rest) =>
    if (skipWS rest).isEmpty then some (elems.map fun l => String.mk l) else none
  | none => none

/-- Lower-case hex digit, as `encoding/json`'s encoder emits. -/
def hexDigitChar (n : Nat) : Char :=
  if n < 10 then Char.ofNat ('0'.toNat + n) else Char.ofNat ('a'.toNat + n - 10)

/-- Escape one character the way `json.Marshal` (HTML-escaping encoder, the
default) serialises string contents: `\" \\ \n \r \t`, `\u00XX` for other
control characters, `<`, `>`, `&` for `<`, `>`, `&`, and
` `, ` ` for the Unicode line separators. -/
def goEscapeChar (c : Char) : List Char :=
  if c = '"' then ['\\', '"']
  else if c = '\\' then ['\\', '\\']
  else if c = '\n' then ['\\', 'n']
  else if c = '\r' then ['\\', 'r']
  else if c = '\t' then ['\\', 't']
  else if c.toNat < 0x20 then
    ['\\', 'u', '0', '0', hexDigitChar (c.toNat / 16), hexDigitChar (c.toNat % 16)]
  else if c = '<' then ['\\', 'u', '0', '0', '3', 'c']
  else if c = '>' then ['\\', 'u', '0', '0', '3', 'e']
  else if c = '&' then ['\\', 'u', '0', '0', '2', '6']
  else if c.toNat = 0x2028 then ['\\', 'u', '2', '0', '2', '8']
  else if c.toNat = 0x2029 then ['\\', 'u', '2', '0', '2', '9']
  else [c]

/-- The characters of `json.Marshal` applied to one string. -/
def jsonMarshalStringChars (s : String) : List Char :=
  '"' :: (s.data.map goEscapeChar).flatten ++ ['"']

/-- Comma-separated serialisation of the elements of a `[]string`. -/
def marshalElems : List String → List Char
  | [] => []
  | [v] => jsonMarshalStringChars v
  | v :: vs => jsonMarshalStringChars v ++ ',' :: marshalElems vs

/-- `json.Marshal` of a `[]string` (never fails for string data). -/
def jsonMarshalStringList (vs : List String) : String :=
  String.mk ('[' :: marshalElems vs ++ [']'])

/-- `strings.HasPrefix(strings.TrimSpace(in), "[")`.  Trimming trailing
whitespace cannot change a one-character prefix, so only the leading trim
needs to be performed. -/
def trimmedStartsWithBracket (s : String) : Bool :=
  match s.data.dropWhile goIsSpace with
  | '[' :: _ => true
  | _ => false

/-- `maybeJSONStringToArray` (the spec's `parseValue`): if the trimmed input
starts with `[` and unmarshals as a JSON array of strings, return that array;
otherwise return the single-element list holding the raw input. -/
def maybeJSONStringToArray (s : String) : List String :=
  if trimmedStartsWithBracket s then
    match jsonUnmarshalStringArray s with
    | some ret => ret
    | none => [s]
  else [s]

example : maybeJSONStringToArray "[]" = [] := by decide
example : maybeJSONStringToArray "3" = ["3"] := by decide
example : maybeJSONStringToArray "[\"a\",\"b\"]" = ["a", "b"] := by decide
example : maybeJSONStringToArray "[x" = ["[x"] := by decide
example : maybeJSONStringToArray "  [ \"a\" , \"b\" ]" = ["a", "b"] := by decide
example : maybeJSONStringToArray "[1]" = ["[1]"] := by decide
example : jsonMarshalStringList ["a", "b"] = "[\"a\",\"b\"]" := by decide
example : jsonMarshalStringList [] = "[]" := by decide
example : maybeJSONStringToArray (jsonMarshalStringList ["a", "b"]) = ["a", "b"] := by decide
example : jsonUnmarshalStringArray "[null]" = some [""] := by decide
example : jsonUnmarshalStringArray "[\"a\"] x" = none := by decide

/-! ## Data model -/

/-- One attribute of a directory entry, as the LDAP client exposes it
(`ldap.EntryAttribute`: a name and its ordered values). -/
structure EntryAttribute where
  name : String
  values : List String
deriving DecidableEq, Repr

/-- A directory entry (`ldap.Entry`): a distinguished name and its
attributes.  Real entries carry each attribute name once. -/
structure Entry where
  dn : String
  attributes : List EntryAttribute
deriving DecidableEq, Repr

/-- One patch operation sent to the directory
(`modify.Add` / `modify.Delete` / `modify.Replace`). -/
inductive AttributeDelta where
  | add (name : String) (values : List String)
  | remove (name : String)
  | replace (name : String) (values : List String)
deriving DecidableEq, Repr

/-- `strings.HasPrefix` at the character level: does the first list start
with the second? -/
def charsStartWith : List Char → List Char → Bool
  | _, [] => true
  | [], _ :: _ => false
  | c :: cs, p :: ps => c == p && charsStartWith cs ps

/-- `strings.HasPrefix(s, pre)`. -/
def goHasPre (s pre : String) : Bool := charsStartWith s.data pre.data

/-- The single-value-attribute RDN test both `readLDAPObject` variants apply:
the value list has exactly one element and `name=value` is a string prefix of
the DN. -/
def isRDNAttr (dn : String) (a : EntryAttribute) : Bool :=
  match a.values with
  | [v] => goHasPre dn (a.name ++ "=" ++ v)
  | _ => false

/-- The DN's leading RDN component: the part before the first comma.
(Used only to state what the RDN actually is; the code never computes it.) -/
def leadingRDN (dn : String) : String :=
  String.mk (dn.data.takeWhile (fun c => c ≠ ','))

namespace MapShaped

/-- Go map lookup on an association list (Go maps carry each key once). -/
def lookupA (n : String) : List (String × String) → Option String
  | [] => none
  | (k, v) :: rest => if k = n then some v else lookupA n rest

/-- The attribute projection of the map-shaped `readLDAPObject`
(`src/provider/resource_ldap_object.go` lines 277-313): skip the names in
`"objectClass" :: skips`, skip a single-valued attribute whose `name=value`
prefixes the DN, store a single value as-is and several values as the
JSON-marshalled array. -/
def readAttributes (dn : String) (attrs : List EntryAttribute) (skips : List String) :
    List (String × String) :=
  attrs.filterMap fun attr =>
    if ("objectClass" :: skips).contains attr.name then none
    else if isRDNAttr dn attr then none
    else match attr.values with
      | [v] => some (attr.name, v)
      | vs => some (attr.name, jsonMarshalStringList vs)

/-- `computeAndAddDeltas` of the map-shaped variant
(`src/provider/resource_ldap_object.go` lines 356-384): three passes over the
old and new maps, removes then adds then replaces. -/
def computeAndAddDeltas (oldAttrs newAttrs : List (String × String)) : List AttributeDelta :=
  (oldAttrs.filterMap fun p =>
    match lookupA p.1 newAttrs with
    | some _ => none
    | none => some (AttributeDelta.remove p.1)) ++
  (newAttrs.filterMap fun p =>
    match lookupA p.1 oldAttrs with
    | some _ => none
    | none => some (AttributeDelta.add p.1 (maybeJSONStringToArray p.2))) ++
  (newAttrs.filterMap fun p =>
    match lookupA p.1 oldAttrs with
    | some oldValue =>
      if oldValue ≠ p.2 then some (AttributeDelta.replace p.1 (maybeJSONStringToArray p.2))
      else none
    | none => none)

end MapShaped

namespace SetShaped

/-- All values associated with a name in a set of single-entry
`name ↦ value` maps (the value collection loops of `computeAndAddDeltas`). -/
def allValuesForName (k : String) (ns : Finset (String × String)) : Finset String :=
  (ns.filter fun p => p.1 = k).image Prod.snd

/-- Names of the entries removed by the change: `os.Difference(ns)`
projected on keys. -/
def removedNames (os ns : Finset (String × String)) : Finset String :=
  (os \ ns).image Prod.fst

/-- Names of the entries added by the change: `ns.Difference(os)`
projected on keys. -/
def addedNames (os ns : Finset (String × String)) : Finset String :=
  (ns \ os).image Prod.fst

/-- Names of the entries kept by the change: `ns.Intersection(os)`
projected on keys. -/
def keptNames (os ns : Finset (String × String)) : Finset String :=
  (ns ∩ os).image Prod.fst

/-- The deltas accumulated on the `ModifyRequest`, grouped by kind.
Iteration order of the underlying Go sets is not deterministic, so each
group is a finite set. -/
structure ModifyDeltas where
  removes : Finset String
  adds : Finset (String × Finset String)
  replaces : Finset (String × Finset String)
deriving DecidableEq

/-- `computeAndAddDeltas` of the set-shaped variant
(`src/unnamed/part_000` lines 328-405): classify each name appearing in the
removed / added projections as a pure remove, a pure add (with every value
under the name in the new set), or a changed name that receives a whole
replace with every value under the name in the new set. -/
def computeAndAddDeltas (os ns : Finset (String × String)) : ModifyDeltas :=
  let rk := removedNames os ns
  let ak := addedNames os ns
  let kk := keptNames os ns
  let ck := rk.filter (fun k => k ∈ ak ∨ k ∈ kk) ∪ ak.filter (fun k => k ∈ rk ∨ k ∈ kk)
  { removes := rk.filter fun k => k ∉ ak ∧ k ∉ kk
    adds := (ak.filter fun k => k ∉ rk ∧ k ∉ kk).image fun k => (k, allValuesForName k ns)
    replaces := ck.image fun k => (k, allValuesForName k ns) }

/-- The attribute projection of the set-shaped `readLDAPObject`
(`src/unnamed/part_000` lines 260-286): skip `objectClass`, skip a
single-valued attribute whose `name=value` prefixes the DN, and add one
`name ↦ value` entry per remaining value. -/
def readAttributes (dn : String) (attrs : List EntryAttribute) : Finset (String × String) :=
  attrs.foldl
    (fun set attr =>
      if attr.name = "objectClass" then set
      else if isRDNAttr dn attr then set
      else attr.values.foldl (fun s value => insert (attr.name, value) s) set)
    ∅

end SetShaped

/-! ## Read / update / delete outcome skeleton (identical in both variants). -/

/-- Outcome of `client.Search`: entries on success, an `*ldap.Error` with its
protocol result code, or any other error. -/
inductive SearchOutcome where
  | entries (es : List Entry)
  | ldapError (resultCode : Nat)
  | otherError
deriving DecidableEq

/-- Outcome of `client.Modify` / `client.Del`. -/
inductive OpOutcome where
  | ok
  | ldapError (resultCode : Nat)
  | otherError
deriving DecidableEq

/-- What `readLDAPObject` does with the search outcome. -/
inductive ReadOutcome where
  /-- `d.SetId("")`, `return nil`: the assumed state is cleared, no error. -/
  | okCleared
  /-- `d.SetId(dn)` and the projected attributes are stored, no error. -/
  | okRead (id : String) (attributes : List (String × String))
  /-- the error is returned to the caller. -/
  | errored
deriving DecidableEq

/-- `readLDAPObject` (map-shaped variant lines 259-270, set-shaped variant
lines 237-248 — identical): a lookup failure with result code 32 while
`updateState` holds clears the id and succeeds; every other failure is
propagated.  `Entries[0]` on an empty result is a runtime panic in Go,
modelled as an error outcome. -/
def readLDAPObject (dn : String) (skips : List String) (res : SearchOutcome)
    (updateState : Bool) : ReadOutcome :=
  match res with
  | .ldapError code =>
    if code = 32 ∧ updateState then .okCleared else .errored
  | .otherError => .errored
  | .entries [] => .errored
  | .entries (e :: _) => .okRead dn (MapShaped.readAttributes e.dn e.attributes skips)

/-- `resourceLDAPObjectRead` calls `readLDAPObject` with `updateState = true`. -/
def resourceLDAPObjectRead (dn : String) (skips : List String) (res : SearchOutcome) :
    ReadOutcome :=
  readLDAPObject dn skips res true

/-- Outcome of `resourceLDAPObjectUpdate` after `client.Modify`. -/
inductive UpdateOutcome where
  | readOutcome (r : ReadOutcome)
  | modifyFailed (e : OpOutcome)
deriving DecidableEq

/-- `resourceLDAPObjectUpdate` (both variants): any `client.Modify` error —
code 32 included — is returned; on success the object is re-read. -/
def resourceLDAPObjectUpdate (dn : String) (skips : List String)
    (modifyResult : OpOutcome) (reread : SearchOutcome) : UpdateOutcome :=
  match modifyResult with
  | .ok => .readOutcome (resourceLDAPObjectRead dn skips reread)
  | e => .modifyFailed e

/-- `resourceLDAPObjectDelete` (both variants): any `client.Del` error —
code 32 included — is returned. -/
def resourceLDAPObjectDelete (delResult : OpOutcome) : Except OpOutcome Unit :=
  match delResult with
  | .ok => .ok ()
  | e => .error e

/-- The name-to-value-list mapping the spec says the projection must
represent: every attribute except object classes, caller-skipped names and
the RDN-matching single-valued attribute.  This definition follows the
spec's words (the reference side of the round-trip claim). -/
def declaredProjection (dn : String) (attrs : List EntryAttribute) (skips : List String) :
    List (String × List String) :=
  attrs.filterMap fun a =>
    if ("objectClass" :: skips).contains a.name then none
    else if isRDNAttr dn a then none
    else some (a.name, a.values)

example :
    MapShaped.computeAndAddDeltas [("a", "1"), ("b", "2")] [("b", "2"), ("c", "3")] =
      [.remove "a", .add "c" ["3"]] := by decide
example :
    MapShaped.readAttributes "cn=foobar,dc=example" [⟨"cn", ["foo"]⟩] [] = [] := by decide
example :
    SetShaped.computeAndAddDeltas {("mail", "a"), ("mail", "b")} {("mail", "a"), ("mail", "c")} =
      ⟨∅, ∅, {("mail", {"a", "c"})}⟩ := by decide
example :
    SetShaped.computeAndAddDeltas ∅ {("mail", "x@y")} = ⟨∅, {("mail", {"x@y"})}, ∅⟩ := by decide
example :
    SetShaped.computeAndAddDeltas {("mail", "x@y")} ∅ = ⟨{"mail"}, ∅, ∅⟩ := by decide
example :
    SetShaped.readAttributes "dc=example" [⟨"mail", ["a", "b"]⟩] =
      ({("mail", "a"), ("mail", "b")} : Finset (String × String)) := by decide

/-! ## Helper lemmas on Go map lookup -/

lemma lookupA_eq_none_iff (n : String) (l : List (String × String)) :
    MapShaped.lookupA n l = none ↔ n ∉ l.map Prod.fst := by
  induction l with
  | nil => simp [MapShaped.lookupA]
  | cons p rest ih =>
    by_cases h : p.1 = n
    · simp [MapShaped.lookupA, h]
    · simp [MapShaped.lookupA, h, ih, Ne.symm h]

lemma lookupA_mem {n v : String} {l : List (String × String)}
    (h : MapShaped.lookupA n l = some v) : (n, v) ∈ l := by
  induction l with
  | nil => simp [MapShaped.lookupA] at h
  | cons p rest ih =>
    obtain ⟨a, b⟩ := p
    by_cases hp : a = n
    · simp [MapShaped.lookupA, hp] at h
      subst hp
      subst h
      exact List.mem_cons_self _ _
    · simp [MapShaped.lookupA, hp] at h
      exact List.mem_cons_of_mem _ (ih h)

lemma lookupA_of_mem_nodup {l : List (String × String)} (hnd : (l.map Prod.fst).Nodup)
    {n v : String} (hm : (n, v) ∈ l) : MapShaped.lookupA n l = some v := by
  induction l with
  | nil => simp at hm
  | cons p rest ih =>
    simp only [List.map_cons, List.nodup_cons] at hnd
    rcases List.mem_cons.mp hm with h | h
    · rw [← h]
      simp [MapShaped.lookupA]
    · have hne : p.1 ≠ n := by
        intro he
        exact hnd.1 (he ▸ (List.mem_map.mpr ⟨(n, v), h, rfl⟩))
      simp [MapShaped.lookupA, hne]
      exact ih hnd.2 h

lemma lookupA_isSome_of_mem {l : List (String × String)} {n v : String} (hm : (n, v) ∈ l) :
    ∃ w, MapShaped.lookupA n l = some w := by
  cases h : MapShaped.lookupA n l with
  | some w => exact ⟨w, rfl⟩
  | none =>
    exact absurd (List.mem_map.mpr ⟨(n, v), hm, rfl⟩) ((lookupA_eq_none_iff n l).mp h)

/-! ## Claim theorems (easy group) -/

/-- Claim C5: `parseValue` returns the parsed JSON array exactly when the trimmed
input starts with `[` and unmarshals as a JSON array of strings; in every
other case (no bracket, or parse failure) it silently returns the raw input
as a single-element list. -/
theorem parseValue_contract :
    (∀ s : String, trimmedStartsWithBracket s = false → maybeJSONStringToArray s = [s]) ∧
    (∀ (s : String) (arr : List String), trimmedStartsWithBracket s = true →
      jsonUnmarshalStringArray s = some arr → maybeJSONStringToArray s = arr) ∧
    (∀ s : String, jsonUnmarshalStringArray s = none → maybeJSONStringToArray s = [s]) := by
  refine ⟨?_, ?_, ?_⟩
  · intro s h
    simp [maybeJSONStringToArray, h]
  · intro s arr h hu
    simp [maybeJSONStringToArray, h, hu]
  · intro s hu
    by_cases h : trimmedStartsWithBracket s <;> simp [maybeJSONStringToArray, h, hu]

/-- Witness for C5 at concrete inputs. -/
theorem parseValue_contract_witness :
    maybeJSONStringToArray "hello" = ["hello"] ∧
    maybeJSONStringToArray "[\"a\"]" = ["a"] ∧
    maybeJSONStringToArray "[x" = ["[x"] :=
  ⟨parseValue_contract.1 "hello" (by decide),
   parseValue_contract.2.1 "[\"a\"]" ["a"] (by decide) (by decide),
   parseValue_contract.2.2 "[x" (by decide)⟩

/-- Claim C10: `parseValue "[]"` is the empty value list, so the map-shaped diff
emits `Add`/`Replace` deltas carrying an empty value list. -/
theorem parseValue_can_return_empty_list :
    jsonUnmarshalStringArray "[]" = some [] ∧
    maybeJSONStringToArray "[]" = [] ∧
    MapShaped.computeAndAddDeltas [] [("description", "[]")] =
      [AttributeDelta.add "description" []] ∧
    MapShaped.computeAndAddDeltas [("description", "x")] [("description", "[]")] =
      [AttributeDelta.replace "description" []] := by decide

/-- Claim C9: the RDN skip is a plain string-prefix test against the whole DN, so a
single-valued attribute that merely prefixes the actual RDN (here `cn=foo`
against RDN `cn=foobar`) is silently omitted by both projections. -/
theorem rdn_skip_is_plain_string_test :
    leadingRDN "cn=foobar,dc=example" = "cn=foobar" ∧
    ("cn" ++ "=" ++ "foo") ≠ "cn=foobar" ∧
    isRDNAttr "cn=foobar,dc=example" ⟨"cn", ["foo"]⟩ = true ∧
    MapShaped.readAttributes "cn=foobar,dc=example" [⟨"cn", ["foo"]⟩] [] = [] ∧
    SetShaped.readAttributes "cn=foobar,dc=example" [⟨"cn", ["foo"]⟩] = ∅ := by decide

/-- Claim C8: a read whose lookup fails with protocol result code 32 clears the
assumed state and succeeds; any other read failure is propagated; on
modify/delete every error, code 32 included, is propagated. -/
theorem notfound_read_clears_state_other_errors_propagate :
    (∀ (dn : String) (skips : List String),
      resourceLDAPObjectRead dn skips (.ldapError 32) = .okCleared) ∧
    (∀ (dn : String) (skips : List String) (code : Nat), code ≠ 32 →
      resourceLDAPObjectRead dn skips (.ldapError code) = .errored) ∧
    (∀ (dn : String) (skips : List String),
      resourceLDAPObjectRead dn skips .otherError = .errored) ∧
    (∀ (dn : String) (skips : List String) (e : OpOutcome) (reread : SearchOutcome),
      e ≠ .ok → resourceLDAPObjectUpdate dn skips e reread = .modifyFailed e) ∧
    (∀ e : OpOutcome, e ≠ .ok → resourceLDAPObjectDelete e = .error e) := by
  refine ⟨?_, ?_, ?_, ?_, ?_⟩
  · intro dn skips
    simp [resourceLDAPObjectRead, readLDAPObject]
  · intro dn skips code h
    simp [resourceLDAPObjectRead, readLDAPObject, h]
  · intro dn skips
    simp [resourceLDAPObjectRead, readLDAPObject]
  · intro dn skips e reread h
    cases e <;> simp_all [resourceLDAPObjectUpdate]
  · intro e h
    cases e <;> simp_all [resourceLDAPObjectDelete]

/-- Witness for C8 at concrete inputs (code 49 = invalid credentials as the
"other" error, and code 32 on modify/delete). -/
theorem notfound_handling_witness :
    resourceLDAPObjectRead "cn=x" [] (.ldapError 49) = .errored ∧
    resourceLDAPObjectUpdate "cn=x" [] (.ldapError 32) (.entries []) =
      .modifyFailed (.ldapError 32) ∧
    resourceLDAPObjectDelete (.ldapError 32) = .error (.ldapError 32) :=
  ⟨notfound_read_clears_state_other_errors_propagate.2.1 "cn=x" [] 49 (by decide),
   notfound_read_clears_state_other_errors_propagate.2.2.2.1 "cn=x" [] (.ldapError 32)
     (.entries []) (by simp),
   notfound_read_clears_state_other_errors_propagate.2.2.2.2 (.ldapError 32) (by simp)⟩

/-- Claim C6: diffing a declared attribute set against itself yields no deltas, in
both the map-shaped and the set-shaped variant. -/
theorem diff_self_is_empty :
    (∀ X : List (String × String), (X.map Prod.fst).Nodup →
      MapShaped.computeAndAddDeltas X X = []) ∧
    (∀ S : Finset (String × String),
      SetShaped.computeAndAddDeltas S S = ⟨∅, ∅, ∅⟩) := by
  constructor
  · intro X hnd
    unfold MapShaped.computeAndAddDeltas
    have h1 : ∀ p ∈ X, (match MapShaped.lookupA p.1 X with
        | some _ => none
        | none => some (AttributeDelta.remove p.1)) = (none : Option AttributeDelta) := by
      intro p hp
      obtain ⟨w, hw⟩ := lookupA_isSome_of_mem (n := p.1) (v := p.2) hp
      rw [hw]
    have h2 : ∀ p ∈ X, (match MapShaped.lookupA p.1 X with
        | some _ => none
        | none => some (AttributeDelta.add p.1 (maybeJSONStringToArray p.2))) =
          (none : Option AttributeDelta) := by
      intro p hp
      obtain ⟨w, hw⟩ := lookupA_isSome_of_mem (n := p.1) (v := p.2) hp
      rw [hw]
    have h3 : ∀ p ∈ X, (match MapShaped.lookupA p.1 X with
        | some oldValue =>
          if oldValue ≠ p.2 then some (AttributeDelta.replace p.1 (maybeJSONStringToArray p.2))
          else none
        | none => none) = (none : Option AttributeDelta) := by
      intro p hp
      rw [lookupA_of_mem_nodup hnd hp]
      simp
    rw [List.filterMap_eq_nil_iff.mpr h1, List.filterMap_eq_nil_iff.mpr h2,
      List.filterMap_eq_nil_iff.mpr h3]
    simp
  · intro S
    simp [SetShaped.computeAndAddDeltas, SetShaped.removedNames, SetShaped.addedNames]

/-- Witness for C6 at a concrete declared attribute set. -/
theorem diff_self_is_empty_witness :
    MapShaped.computeAndAddDeltas [("a", "1"), ("b", "2")] [("a", "1"), ("b", "2")] = [] ∧
    SetShaped.computeAndAddDeltas {("mail", "a"), ("mail", "b")} {("mail", "a"), ("mail", "b")} =
      ⟨∅, ∅, ∅⟩ :=
  ⟨diff_self_is_empty.1 [("a", "1"), ("b", "2")] (by decide),
   diff_self_is_empty.2 {("mail", "a"), ("mail", "b")}⟩

/-- Claim C1: a name appearing in the removed projection and also in the added or
kept projection (or vice versa) is classified as changed: it receives exactly
one `Replace` carrying every value under the name in the new set, and no
`Add` or `Remove`. -/
theorem setDiff_mixed_change_is_single_replace (os ns : Finset (String × String)) (k : String)
    (h : (k ∈ SetShaped.removedNames os ns ∧
            (k ∈ SetShaped.addedNames os ns ∨ k ∈ SetShaped.keptNames os ns)) ∨
         (k ∈ SetShaped.addedNames os ns ∧
            (k ∈ SetShaped.removedNames os ns ∨ k ∈ SetShaped.keptNames os ns))) :
    (k, SetShaped.allValuesForName k ns) ∈ (SetShaped.computeAndAddDeltas os ns).replaces ∧
    (∀ vs, (k, vs) ∈ (SetShaped.computeAndAddDeltas os ns).replaces →
      vs = SetShaped.allValuesForName k ns) ∧
    k ∉ (SetShaped.computeAndAddDeltas os ns).removes ∧
    (∀ vs, (k, vs) ∉ (SetShaped.computeAndAddDeltas os ns).adds) := by
  simp only [SetShaped.computeAndAddDeltas]
  refine ⟨?_, ?_, ?_, ?_⟩
  · simp only [Finset.mem_image, Finset.mem_union, Finset.mem_filter]
    exact ⟨k, by tauto, rfl⟩
  · intro vs hvs
    simp only [Finset.mem_image, Finset.mem_union, Finset.mem_filter] at hvs
    obtain ⟨x, _, hx⟩ := hvs
    have hxk : x = k := congrArg Prod.fst hx
    subst hxk
    exact (congrArg Prod.snd hx).symm
  · intro hk
    simp only [Finset.mem_filter] at hk
    tauto
  · intro vs hvs
    simp only [Finset.mem_image, Finset.mem_filter] at hvs
    obtain ⟨x, hx1, hx2⟩ := hvs
    have hxk : x = k := congrArg Prod.fst hx2
    subst hxk
    tauto

/-- Witness for C1 at the spec's mixed-change example. -/
theorem setDiff_mixed_change_witness :
    ("mail", SetShaped.allValuesForName "mail"
        ({("mail", "a"), ("mail", "c")} : Finset (String × String))) ∈
      (SetShaped.computeAndAddDeltas {("mail", "a"), ("mail", "b")}
        {("mail", "a"), ("mail", "c")}).replaces ∧
    SetShaped.allValuesForName "mail"
        ({("mail", "a"), ("mail", "c")} : Finset (String × String)) = {"a", "c"} ∧
    SetShaped.computeAndAddDeltas {("mail", "a"), ("mail", "b")}
        {("mail", "a"), ("mail", "c")} = ⟨∅, ∅, {("mail", {"a", "c"})}⟩ :=
  ⟨(setDiff_mixed_change_is_single_replace {("mail", "a"), ("mail", "b")}
      {("mail", "a"), ("mail", "c")} "mail" (Or.inl ⟨by decide, Or.inl (by decide)⟩)).1,
   by decide, by decide⟩

/-- Claim C2: a name only in the removed projection yields exactly `Remove`; a name
only in the added projection yields exactly `Add` with every value under the
name in the new set. -/
theorem setDiff_pure_add_and_pure_remove (os ns : Finset (String × String)) (k : String) :
    (k ∈ SetShaped.removedNames os ns → k ∉ SetShaped.addedNames os ns →
      k ∉ SetShaped.keptNames os ns →
      k ∈ (SetShaped.computeAndAddDeltas os ns).removes ∧
      (∀ vs, (k, vs) ∉ (SetShaped.computeAndAddDeltas os ns).adds) ∧
      (∀ vs, (k, vs) ∉ (SetShaped.computeAndAddDeltas os ns).replaces)) ∧
    (k ∈ SetShaped.addedNames os ns → k ∉ SetShaped.removedNames os ns →
      k ∉ SetShaped.keptNames os ns →
      (k, SetShaped.allValuesForName k ns) ∈ (SetShaped.computeAndAddDeltas os ns).adds ∧
      (∀ vs, (k, vs) ∈ (SetShaped.computeAndAddDeltas os ns).adds →
        vs = SetShaped.allValuesForName k ns) ∧
      k ∉ (SetShaped.computeAndAddDeltas os ns).removes ∧
      (∀ vs, (k, vs) ∉ (SetShaped.computeAndAddDeltas os ns).replaces)) := by
  simp only [SetShaped.computeAndAddDeltas]
  constructor
  · intro h1 h2 h3
    refine ⟨?_, ?_, ?_⟩
    · simp only [Finset.mem_filter]
      exact ⟨h1, h2, h3⟩
    · intro vs hvs
      simp only [Finset.mem_image, Finset.mem_filter] at hvs
      obtain ⟨x, hx1, hx2⟩ := hvs
      have hxk : x = k := congrArg Prod.fst hx2
      subst hxk
      tauto
    · intro vs hvs
      simp only [Finset.mem_image, Finset.mem_union, Finset.mem_filter] at hvs
      obtain ⟨x, hx1, hx2⟩ := hvs
      have hxk : x = k := congrArg Prod.fst hx2
      subst hxk
      tauto
  · intro h1 h2 h3
    refine ⟨?_, ?_, ?_, ?_⟩
    · simp only [Finset.mem_image, Finset.mem_filter]
      exact ⟨k, ⟨h1, h2, h3⟩, rfl⟩
    · intro vs hvs
      simp only [Finset.mem_image, Finset.mem_filter] at hvs
      obtain ⟨x, hx1, hx2⟩ := hvs
      have hxk : x = k := congrArg Prod.fst hx2
      subst hxk
      exact (congrArg Prod.snd hx2).symm
    · intro hk
      simp only [Finset.mem_filter] at hk
      tauto
    · intro vs hvs
      simp only [Finset.mem_image, Finset.mem_union, Finset.mem_filter] at hvs
      obtain ⟨x, hx1, hx2⟩ := hvs
      have hxk : x = k := congrArg Prod.fst hx2
      subst hxk
      tauto

/-- Witness for C2 at the spec's pure-add and pure-remove examples. -/
theorem setDiff_pure_add_remove_witness :
    ("mail", SetShaped.allValuesForName "mail"
        ({("mail", "x@y")} : Finset (String × String))) ∈
      (SetShaped.computeAndAddDeltas ∅ {("mail", "x@y")}).adds ∧
    SetShaped.allValuesForName "mail" ({("mail", "x@y")} : Finset (String × String)) =
      {"x@y"} ∧
    "mail" ∈ (SetShaped.computeAndAddDeltas {("mail", "x@y")} ∅).removes :=
  ⟨((setDiff_pure_add_and_pure_remove ∅ {("mail", "x@y")} "mail").2 (by decide) (by decide)
      (by decide)).1,
   by decide,
   ((setDiff_pure_add_and_pure_remove {("mail", "x@y")} ∅ "mail").1 (by decide) (by decide)
      (by decide)).1⟩

/-! ## Membership characterisations of the three map-diff passes -/

lemma mem_removes_pass {old new : List (String × String)} {d : AttributeDelta} :
    (d ∈ old.filterMap fun p =>
      match MapShaped.lookupA p.1 new with
      | some _ => none
      | none => some (AttributeDelta.remove p.1)) ↔
    ∃ n, d = AttributeDelta.remove n ∧ n ∈ old.map Prod.fst ∧
      MapShaped.lookupA n new = none := by
  simp only [List.mem_filterMap]
  constructor
  · rintro ⟨p, hp, hfp⟩
    cases hl : MapShaped.lookupA p.1 new with
    | some w => rw [hl] at hfp; simp at hfp
    | none =>
      rw [hl] at hfp
      simp only [Option.some.injEq] at hfp
      exact ⟨p.1, hfp.symm, List.mem_map.mpr ⟨p, hp, rfl⟩, hl⟩
  · rintro ⟨n, rfl, hn, hl⟩
    obtain ⟨p, hp, hfst⟩ := List.mem_map.mp hn
    refine ⟨p, hp, ?_⟩
    rw [hfst, hl]

lemma mem_adds_pass {old new : List (String × String)} {d : AttributeDelta} :
    (d ∈ new.filterMap fun p =>
      match MapShaped.lookupA p.1 old with
      | some _ => none
      | none => some (AttributeDelta.add p.1 (maybeJSONStringToArray p.2))) ↔
    ∃ p, p ∈ new ∧ MapShaped.lookupA p.1 old = none ∧
      d = AttributeDelta.add p.1 (maybeJSONStringToArray p.2) := by
  simp only [List.mem_filterMap]
  constructor
  · rintro ⟨p, hp, hfp⟩
    cases hl : MapShaped.lookupA p.1 old with
    | some w => rw [hl] at hfp; simp at hfp
    | none =>
      rw [hl] at hfp
      simp only [Option.some.injEq] at hfp
      exact ⟨p, hp, hl, hfp.symm⟩
  · rintro ⟨p, hp, hl, rfl⟩
    refine ⟨p, hp, ?_⟩
    rw [hl]

lemma mem_replaces_pass {old new : List (String × String)} {d : AttributeDelta} :
    (d ∈ new.filterMap fun p =>
      match MapShaped.lookupA p.1 old with
      | some oldValue =>
        if oldValue ≠ p.2 then some (AttributeDelta.replace p.1 (maybeJSONStringToArray p.2))
        else none
      | none => none) ↔
    ∃ p ov, p ∈ new ∧ MapShaped.lookupA p.1 old = some ov ∧ ov ≠ p.2 ∧
      d = AttributeDelta.replace p.1 (maybeJSONStringToArray p.2) := by
  simp only [List.mem_filterMap]
  constructor
  · rintro ⟨p, hp, hfp⟩
    cases hl : MapShaped.lookupA p.1 old with
    | none => rw [hl] at hfp; simp at hfp
    | some ov =>
      rw [hl] at hfp
      by_cases hne : ov = p.2
      · simp [hne] at hfp
      · simp only [ne_eq, hne, not_false_iff, if_true, Option.some.injEq] at hfp
        exact ⟨p, ov, hp, hl, hne, hfp.symm⟩
  · rintro ⟨p, ov, hp, hl, hne, rfl⟩
    refine ⟨p, hp, ?_⟩
    simp [hl, hne]

/-- Claim C3: the map-shaped diff removes names dropped from the map, adds names
new to the map with their parsed values, replaces names whose raw string
changed, emits nothing for unchanged names, and orders removes before adds
before replaces. -/
theorem mapDiff_characterisation (old new : List (String × String))
    (hold : (old.map Prod.fst).Nodup) (hnew : (new.map Prod.fst).Nodup) :
    (∀ n, AttributeDelta.remove n ∈ MapShaped.computeAndAddDeltas old new ↔
      n ∈ old.map Prod.fst ∧ n ∉ new.map Prod.fst) ∧
    (∀ n vs, AttributeDelta.add n vs ∈ MapShaped.computeAndAddDeltas old new ↔
      n ∉ old.map Prod.fst ∧ ∃ v, (n, v) ∈ new ∧ vs = maybeJSONStringToArray v) ∧
    (∀ n vs, AttributeDelta.replace n vs ∈ MapShaped.computeAndAddDeltas old new ↔
      ∃ ov v, (n, ov) ∈ old ∧ (n, v) ∈ new ∧ ov ≠ v ∧ vs = maybeJSONStringToArray v) ∧
    (∃ rs as ps, MapShaped.computeAndAddDeltas old new = rs ++ as ++ ps ∧
      (∀ d ∈ rs, ∃ n, d = AttributeDelta.remove n) ∧
      (∀ d ∈ as, ∃ n vs, d = AttributeDelta.add n vs) ∧
      (∀ d ∈ ps, ∃ n vs, d = AttributeDelta.replace n vs)) := by
  have hsplit : ∀ d : AttributeDelta, d ∈ MapShaped.computeAndAddDeltas old new ↔
      ((∃ n, d = AttributeDelta.remove n ∧ n ∈ old.map Prod.fst ∧
          MapShaped.lookupA n new = none) ∨
        (∃ p, p ∈ new ∧ MapShaped.lookupA p.1 old = none ∧
          d = AttributeDelta.add p.1 (maybeJSONStringToArray p.2))) ∨
      (∃ p ov, p ∈ new ∧ MapShaped.lookupA p.1 old = some ov ∧ ov ≠ p.2 ∧
        d = AttributeDelta.replace p.1 (maybeJSONStringToArray p.2)) := by
    intro d
    rw [MapShaped.computeAndAddDeltas, List.mem_append, List.mem_append,
      mem_removes_pass, mem_adds_pass, mem_replaces_pass]
  refine ⟨?_, ?_, ?_, ?_⟩
  · intro n
    rw [hsplit]
    constructor
    · rintro ((h | h) | h)
      · obtain ⟨m, hm, hmem, hl⟩ := h
        cases hm
        exact ⟨hmem, (lookupA_eq_none_iff n new).mp hl⟩
      · obtain ⟨p, _, _, heq⟩ := h
        exact absurd heq (by simp)
      · obtain ⟨p, ov, _, _, _, heq⟩ := h
        exact absurd heq (by simp)
    · rintro ⟨hmem, hnot⟩
      exact Or.inl (Or.inl ⟨n, rfl, hmem, (lookupA_eq_none_iff n new).mpr hnot⟩)
  · intro n vs
    rw [hsplit]
    constructor
    · rintro ((h | h) | h)
      · obtain ⟨m, hm, _, _⟩ := h
        exact absurd hm (by simp)
      · obtain ⟨⟨a, b⟩, hp, hl, heq⟩ := h
        simp only [AttributeDelta.add.injEq] at heq
        obtain ⟨rfl, rfl⟩ := heq
        exact ⟨(lookupA_eq_none_iff _ old).mp hl, b, hp, rfl⟩
      · obtain ⟨p, ov, _, _, _, heq⟩ := h
        exact absurd heq (by simp)
    · rintro ⟨hnot, v, hv, rfl⟩
      exact Or.inl (Or.inr ⟨(n, v), hv, (lookupA_eq_none_iff n old).mpr hnot, rfl⟩)
  · intro n vs
    rw [hsplit]
    constructor
    · rintro ((h | h) | h)
      · obtain ⟨m, hm, _, _⟩ := h
        exact absurd hm (by simp)
      · obtain ⟨p, _, _, heq⟩ := h
        exact absurd heq (by simp)
      · obtain ⟨⟨a, b⟩, ov, hp, hl, hne, heq⟩ := h
        simp only [AttributeDelta.replace.injEq] at heq
        obtain ⟨rfl, rfl⟩ := heq
        exact ⟨ov, b, lookupA_mem hl, hp, hne, rfl⟩
    · rintro ⟨ov, v, hov, hv, hne, rfl⟩
      exact Or.inr ⟨(n, v), ov, hv, lookupA_of_mem_nodup hold hov, hne, rfl⟩
  · rw [MapShaped.computeAndAddDeltas]
    refine ⟨_, _, _, rfl, ?_, ?_, ?_⟩
    · intro d hd
      obtain ⟨m, hm, _, _⟩ := mem_removes_pass.mp hd
      exact ⟨m, hm⟩
    · intro d hd
      obtain ⟨p, _, _, hm⟩ := mem_adds_pass.mp hd
      exact ⟨p.1, maybeJSONStringToArray p.2, hm⟩
    · intro d hd
      obtain ⟨p, ov, _, _, _, hm⟩ := mem_replaces_pass.mp hd
      exact ⟨p.1, maybeJSONStringToArray p.2, hm⟩

/-- Witness for C3 at the spec's example, with the concrete delta list. -/
theorem mapDiff_characterisation_witness :
    (AttributeDelta.remove "a" ∈
      MapShaped.computeAndAddDeltas [("a", "1"), ("b", "2")] [("b", "2"), ("c", "3")]) ∧
    MapShaped.computeAndAddDeltas [("a", "1"), ("b", "2")] [("b", "2"), ("c", "3")] =
      [AttributeDelta.remove "a", AttributeDelta.add "c" ["3"]] :=
  ⟨((mapDiff_characterisation [("a", "1"), ("b", "2")] [("b", "2"), ("c", "3")]
      (by decide) (by decide)).1 "a").mpr (by decide),
   by decide⟩

/-! ## Membership characterisation of the two projections -/

lemma mem_foldl_insert (name : String) (values : List String)
    (s : Finset (String × String)) (q : String × String) :
    q ∈ values.foldl (fun acc v => insert (name, v) acc) s ↔
      q ∈ s ∨ (q.1 = name ∧ q.2 ∈ values) := by
  induction values generalizing s with
  | nil => simp
  | cons v vs ih =>
    obtain ⟨x, y⟩ := q
    simp only [List.foldl_cons, ih, Finset.mem_insert, Prod.mk.injEq, List.mem_cons]
    tauto

lemma mem_readAttributes_set {dn : String} {attrs : List EntryAttribute}
    {q : String × String} :
    q ∈ SetShaped.readAttributes dn attrs ↔
      ∃ a ∈ attrs, a.name ≠ "objectClass" ∧ isRDNAttr dn a = false ∧
        q.1 = a.name ∧ q.2 ∈ a.values := by
  have haux : ∀ (l : List EntryAttribute) (init : Finset (String × String)),
      q ∈ l.foldl (fun set attr =>
        if attr.name = "objectClass" then set
        else if isRDNAttr dn attr then set
        else attr.values.foldl (fun s value => insert (attr.name, value) s) set) init ↔
      q ∈ init ∨ ∃ a ∈ l, a.name ≠ "objectClass" ∧ isRDNAttr dn a = false ∧
        q.1 = a.name ∧ q.2 ∈ a.values := by
    intro l
    induction l with
    | nil => simp
    | cons a as ih =>
      intro init
      simp only [List.foldl_cons]
      by_cases h1 : a.name = "objectClass"
      · rw [if_pos h1, ih]
        simp only [List.mem_cons]
        constructor
        · rintro (h | h)
          · exact Or.inl h
          · obtain ⟨a', ha', rest⟩ := h
            exact Or.inr ⟨a', Or.inr ha', rest⟩
        · rintro (h | h)
          · exact Or.inl h
          · obtain ⟨a', ha' | ha', rest⟩ := h
            · exact absurd (ha' ▸ h1) rest.1
            · exact Or.inr ⟨a', ha', rest⟩
      · rw [if_neg h1]
        by_cases h2 : isRDNAttr dn a
        · rw [if_pos h2, ih]
          simp only [List.mem_cons]
          constructor
          · rintro (h | h)
            · exact Or.inl h
            · obtain ⟨a', ha', rest⟩ := h
              exact Or.inr ⟨a', Or.inr ha', rest⟩
          · rintro (h | h)
            · exact Or.inl h
            · obtain ⟨a', ha' | ha', rest⟩ := h
              · rw [ha'] at rest
                rw [rest.2.1] at h2
                simp at h2
              · exact Or.inr ⟨a', ha', rest⟩
        · rw [if_neg h2, ih, mem_foldl_insert]
          simp only [List.mem_cons]
          constructor
          · rintro ((h | h) | h)
            · exact Or.inl h
            · exact Or.inr ⟨a, Or.inl rfl, h1, by simpa using h2, h.1, h.2⟩
            · obtain ⟨a', ha', rest⟩ := h
              exact Or.inr ⟨a', Or.inr ha', rest⟩
          · rintro (h | h)
            · exact Or.inl (Or.inl h)
            · obtain ⟨a', ha' | ha', rest⟩ := h
              · rw [ha'] at rest
                exact Or.inl (Or.inr ⟨rest.2.2.1, rest.2.2.2⟩)
              · exact Or.inr ⟨a', ha', rest⟩
  rw [SetShaped.readAttributes, haux]
  simp

lemma name_of_mem_readAttributesMap {dn : String} {attrs : List EntryAttribute}
    {skips : List String} {n v : String}
    (h : (n, v) ∈ MapShaped.readAttributes dn attrs skips) :
    ∃ a ∈ attrs, a.name = n ∧ ("objectClass" :: skips).contains a.name = false ∧
      isRDNAttr dn a = false := by
  simp only [MapShaped.readAttributes, List.mem_filterMap] at h
  obtain ⟨a, ha, hfa⟩ := h
  by_cases h1 : ("objectClass" :: skips).contains a.name
  · rw [if_pos h1] at hfa
    simp at hfa
  · rw [if_neg h1] at hfa
    by_cases h2 : isRDNAttr dn a
    · rw [if_pos h2] at hfa
      simp at hfa
    · rw [if_neg h2] at hfa
      refine ⟨a, ha, ?_, by simpa using h1, by simpa using h2⟩
      rcases hv : a.values with _ | ⟨v1, _ | ⟨v2, vs⟩⟩ <;>
        (rw [hv] at hfa; simp_all)

/-- Claim C7: neither projection ever emits an entry for the object-class
attribute, nor for a single-valued attribute whose `name=value` prefixes the
entry's DN. -/
theorem projection_never_emits_objectClass_or_rdn (dn : String)
    (attrs : List EntryAttribute) (skips : List String)
    (hnd : (attrs.map EntryAttribute.name).Nodup) :
    (∀ v, ("objectClass", v) ∉ MapShaped.readAttributes dn attrs skips ∧
      ("objectClass", v) ∉ SetShaped.readAttributes dn attrs) ∧
    (∀ a ∈ attrs, isRDNAttr dn a = true →
      ∀ v, (a.name, v) ∉ MapShaped.readAttributes dn attrs skips ∧
        (a.name, v) ∉ SetShaped.readAttributes dn attrs) := by
  constructor
  · intro v
    constructor
    · intro hmem
      obtain ⟨a, _, hname, hcont, _⟩ := name_of_mem_readAttributesMap hmem
      rw [hname] at hcont
      simp at hcont
    · intro hmem
      obtain ⟨a, _, hoc, _, hfst, _⟩ := mem_readAttributes_set.mp hmem
      exact hoc (by simpa using hfst.symm)
  · intro a ha hrdn v
    constructor
    · intro hmem
      obtain ⟨a', ha', hname, _, hrdn'⟩ := name_of_mem_readAttributesMap hmem
      have : a' = a := List.inj_on_of_nodup_map hnd ha' ha hname
      rw [this] at hrdn'
      rw [hrdn] at hrdn'
      simp at hrdn'
    · intro hmem
      obtain ⟨a', ha', _, hrdn', hfst, _⟩ := mem_readAttributes_set.mp hmem
      have : a' = a := List.inj_on_of_nodup_map hnd ha' ha (by simpa using hfst.symm)
      rw [this] at hrdn'
      rw [hrdn] at hrdn'
      simp at hrdn'

/-- Witness for C7 at a concrete entry. -/
theorem projection_skip_witness :
    (("objectClass", "top") ∉
      MapShaped.readAttributes "ou=x,dc=y" [⟨"objectClass", ["top"]⟩, ⟨"ou", ["x"]⟩] []) ∧
    (("ou", "x") ∉
      SetShaped.readAttributes "ou=x,dc=y" [⟨"objectClass", ["top"]⟩, ⟨"ou", ["x"]⟩]) :=
  ⟨((projection_never_emits_objectClass_or_rdn "ou=x,dc=y"
      [⟨"objectClass", ["top"]⟩, ⟨"ou", ["x"]⟩] [] (by decide)).1 "top").1,
   (((projection_never_emits_objectClass_or_rdn "ou=x,dc=y"
      [⟨"objectClass", ["top"]⟩, ⟨"ou", ["x"]⟩] [] (by decide)).2 ⟨"ou", ["x"]⟩
      (by decide) (by decide)) "x").2⟩

/-! ## Round-trip of `json.Marshal` / `json.Unmarshal` on string lists -/

lemma hexDigitValue_hexDigitChar (n : Nat) (h : n < 16) :
    hexDigitValue (hexDigitChar n) = some n := by
  interval_cases n <;> rfl

lemma step_quote (f : Nat) (t : List Char) : parseJStrAux (f + 1) ('"' :: t) = some ([], t) :=
  rfl

lemma stepEscQuote (f : Nat) (t : List Char) :
    parseJStrAux (f + 1) ('\\' :: '"' :: t) =
      (parseJStrAux f t).map (fun p => ('"' :: p.1, p.2)) := rfl

lemma stepEscBackslash (f : Nat) (t : List Char) :
    parseJStrAux (f + 1) ('\\' :: '\\' :: t) =
      (parseJStrAux f t).map (fun p => ('\\' :: p.1, p.2)) := rfl

lemma stepEscN (f : Nat) (t : List Char) :
    parseJStrAux (f + 1) ('\\' :: 'n' :: t) =
      (parseJStrAux f t).map (fun p => ('\n' :: p.1, p.2)) := rfl

lemma stepEscR (f : Nat) (t : List Char) :
    parseJStrAux (f + 1) ('\\' :: 'r' :: t) =
      (parseJStrAux f t).map (fun p => ('\r' :: p.1, p.2)) := rfl

lemma stepEscT (f : Nat) (t : List Char) :
    parseJStrAux (f + 1) ('\\' :: 't' :: t) =
      (parseJStrAux f t).map (fun p => ('\t' :: p.1, p.2)) := rfl

lemma stepEscLt (f : Nat) (t : List Char) :
    parseJStrAux (f + 1) ('\\' :: 'u' :: '0' :: '0' :: '3' :: 'c' :: t) =
      (parseJStrAux f t).map (fun p => ('<' :: p.1, p.2)) := rfl

lemma stepEscGt (f : Nat) (t : List Char) :
    parseJStrAux (f + 1) ('\\' :: 'u' :: '0' :: '0' :: '3' :: 'e' :: t) =
      (parseJStrAux f t).map (fun p => ('>' :: p.1, p.2)) := rfl

lemma stepEscAmp (f : Nat) (t : List Char) :
    parseJStrAux (f + 1) ('\\' :: 'u' :: '0' :: '0' :: '2' :: '6' :: t) =
      (parseJStrAux f t).map (fun p => ('&' :: p.1, p.2)) := rfl

lemma stepEscLsep (f : Nat) (t : List Char) :
    parseJStrAux (f + 1) ('\\' :: 'u' :: '2' :: '0' :: '2' :: '8' :: t) =
      (parseJStrAux f t).map (fun p => (Char.ofNat 0x2028 :: p.1, p.2)) := rfl

lemma stepEscPsep (f : Nat) (t : List Char) :
    parseJStrAux (f + 1) ('\\' :: 'u' :: '2' :: '0' :: '2' :: '9' :: t) =
      (parseJStrAux f t).map (fun p => (Char.ofNat 0x2029 :: p.1, p.2)) := rfl

lemma step_plain (f : Nat) (c : Char) (t : List Char) (h1 : c ≠ '"') (h2 : c ≠ '\\')
    (h3 : ¬ c.toNat < 0x20) :
    parseJStrAux (f + 1) (c :: t) = (parseJStrAux f t).map (fun p => (c :: p.1, p.2)) := by
  simp [parseJStrAux, h1, h2, h3]

lemma step_u00 (f : Nat) (hi lo : Nat) (hhi : hi < 2) (hlo : lo < 16) (t : List Char) :
    parseJStrAux (f + 1)
      ('\\' :: 'u' :: '0' :: '0' :: hexDigitChar hi :: hexDigitChar lo :: t) =
      (parseJStrAux f t).map (fun p => (Char.ofNat (hi * 16 + lo) :: p.1, p.2)) := by
  interval_cases hi <;> interval_cases lo <;> rfl

lemma goEscLen (c : Char) : 1 ≤ (goEscapeChar c).length := by
  unfold goEscapeChar
  split_ifs <;> simp

lemma parse_escaped (cs : List Char) :
    ∀ (fuel : Nat) (rest : List Char),
      ((cs.map goEscapeChar).flatten).length + 1 ≤ fuel →
      parseJStrAux fuel ((cs.map goEscapeChar).flatten ++ '"' :: rest) = some (cs, rest) := by
  induction cs with
  | nil =>
    intro fuel rest h
    obtain ⟨f, rfl⟩ : ∃ f, fuel = f + 1 := ⟨fuel - 1, by omega⟩
    exact step_quote f rest
  | cons c cs ih =>
    intro fuel rest h
    obtain ⟨f, rfl⟩ : ∃ f, fuel = f + 1 := ⟨fuel - 1, by omega⟩
    have hl1 : ((List.map goEscapeChar (c :: cs)).flatten).length =
        (goEscapeChar c).length + ((cs.map goEscapeChar).flatten).length := by
      simp
    have hlen : ((cs.map goEscapeChar).flatten).length + 1 ≤ f := by
      have := goEscLen c
      omega
    simp only [List.map_cons, List.flatten_cons, List.append_assoc]
    by_cases h1 : c = '"'
    · subst h1
      rw [show goEscapeChar '"' = ['\\', '"'] from rfl]
      simp only [List.cons_append, List.nil_append]
      rw [stepEscQuote, ih f rest hlen]
      rfl
    · by_cases h2 : c = '\\'
      · subst h2
        rw [show goEscapeChar '\\' = ['\\', '\\'] from rfl]
        simp only [List.cons_append, List.nil_append]
        rw [stepEscBackslash, ih f rest hlen]
        rfl
      · by_cases h3 : c = '\n'
        · subst h3
          rw [show goEscapeChar '\n' = ['\\', 'n'] from rfl]
          simp only [List.cons_append, List.nil_append]
          rw [stepEscN, ih f rest hlen]
          rfl
        · by_cases h4 : c = '\r'
          · subst h4
            rw [show goEscapeChar '\r' = ['\\', 'r'] from rfl]
            simp only [List.cons_append, List.nil_append]
            rw [stepEscR, ih f rest hlen]
            rfl
          · by_cases h5 : c = '\t'
            · subst h5
              rw [show goEscapeChar '\t' = ['\\', 't'] from rfl]
              simp only [List.cons_append, List.nil_append]
              rw [stepEscT, ih f rest hlen]
              rfl
            · by_cases h6 : c.toNat < 0x20
              · have he : goEscapeChar c =
                    ['\\', 'u', '0', '0', hexDigitChar (c.toNat / 16),
                      hexDigitChar (c.toNat % 16)] := by
                  rw [goEscapeChar]
                  simp only [if_neg h1, if_neg h2, if_neg h3, if_neg h4, if_neg h5, if_pos h6]
                rw [he]
                simp only [List.cons_append, List.nil_append]
                rw [step_u00 f (c.toNat / 16) (c.toNat % 16) (by omega) (by omega),
                  ih f rest hlen]
                have hdm : c.toNat / 16 * 16 + c.toNat % 16 = c.toNat := by omega
                rw [hdm, Char.ofNat_toNat]
                rfl
              · by_cases h7 : c = '<'
                · subst h7
                  rw [show goEscapeChar '<' = ['\\', 'u', '0', '0', '3', 'c'] from rfl]
                  simp only [List.cons_append, List.nil_append]
                  rw [stepEscLt, ih f rest hlen]
                  rfl
                · by_cases h8 : c = '>'
                  · subst h8
                    rw [show goEscapeChar '>' = ['\\', 'u', '0', '0', '3', 'e'] from rfl]
                    simp only [List.cons_append, List.nil_append]
                    rw [stepEscGt, ih f rest hlen]
                    rfl
                  · by_cases h9 : c = '&'
                    · subst h9
                      rw [show goEscapeChar '&' = ['\\', 'u', '0', '0', '2', '6'] from rfl]
                      simp only [List.cons_append, List.nil_append]
                      rw [stepEscAmp, ih f rest hlen]
                      rfl
                    · by_cases h10 : c.toNat = 0x2028
                      · have hc : c = Char.ofNat 0x2028 := by
                          rw [← Char.ofNat_toNat c, h10]
                        subst hc
                        rw [show goEscapeChar (Char.ofNat 0x2028) =
                          ['\\', 'u', '2', '0', '2', '8'] from rfl]
                        simp only [List.cons_append, List.nil_append]
                        rw [stepEscLsep, ih f rest hlen]
                        rfl
                      · by_cases h11 : c.toNat = 0x2029
                        · have hc : c = Char.ofNat 0x2029 := by
                            rw [← Char.ofNat_toNat c, h11]
                          subst hc
                          rw [show goEscapeChar (Char.ofNat 0x2029) =
                            ['\\', 'u', '2', '0', '2', '9'] from rfl]
                          simp only [List.cons_append, List.nil_append]
                          rw [stepEscPsep, ih f rest hlen]
                          rfl
                        · have he : goEscapeChar c = [c] := by
                            rw [goEscapeChar]
                            simp only [if_neg h1, if_neg h2, if_neg h3, if_neg h4, if_neg h5,
                              if_neg h6, if_neg h7, if_neg h8, if_neg h9, if_neg h10,
                              if_neg h11]
                          rw [he]
                          simp only [List.cons_append, List.nil_append]
                          rw [step_plain f c _ h1 h2 h6, ih f rest hlen]
                          rfl

lemma parseJElem_marshal (v : String) (rest : List Char) :
    parseJElem (jsonMarshalStringChars v ++ rest) = some (v.data, rest) := by
  have hshape : jsonMarshalStringChars v ++ rest =
      '"' :: ((v.data.map goEscapeChar).flatten ++ '"' :: rest) := by
    simp [jsonMarshalStringChars]
  rw [hshape]
  show parseJStrAux (((v.data.map goEscapeChar).flatten ++ '"' :: rest).length + 1)
      ((v.data.map goEscapeChar).flatten ++ '"' :: rest) = some (v.data, rest)
  exact parse_escaped v.data _ rest (by simp [List.length_append])

lemma skipWS_cons_of_not_space (c : Char) (t : List Char) (h : isJSONSpace c = false) :
    skipWS (c :: t) = c :: t := by
  simp [skipWS, List.dropWhile_cons, h]

lemma marshalElems_cons_head (v : String) (vs : List String) :
    ∃ t, marshalElems (v :: vs) = '"' :: t := by
  cases vs <;> exact ⟨_, rfl⟩

lemma marshalElems_length (vs : List String) : vs.length ≤ (marshalElems vs).length := by
  induction vs with
  | nil => simp [marshalElems]
  | cons v vs ih =>
    cases vs with
    | nil => simp [marshalElems, jsonMarshalStringChars]
    | cons w ws =>
      rw [show marshalElems (v :: w :: ws) =
        jsonMarshalStringChars v ++ ',' :: marshalElems (w :: ws) from rfl]
      have h2 : 1 ≤ (jsonMarshalStringChars v).length := by
        simp [jsonMarshalStringChars]
      simp only [List.length_cons, List.length_append]
      simp only [List.length_cons] at ih
      omega

lemma parseJElemsAux_marshal (vs : List String) :
    ∀ (fuel : Nat) (tail : List Char), vs ≠ [] → vs.length ≤ fuel →
      parseJElemsAux fuel (marshalElems vs ++ ']' :: tail) =
        some (vs.map String.data, tail) := by
  induction vs with
  | nil => intro fuel tail h; exact absurd rfl h
  | cons v vs ih =>
    intro fuel tail _ hf
    obtain ⟨f, rfl⟩ : ∃ f, fuel = f + 1 :=
      ⟨fuel - 1, by simp only [List.length_cons] at hf; omega⟩
    cases vs with
    | nil =>
      rw [show marshalElems [v] = jsonMarshalStringChars v from rfl]
      rw [parseJElemsAux, parseJElem_marshal v (']' :: tail)]
      simp [skipWS_cons_of_not_space ']' tail rfl]
    | cons w ws =>
      rw [show marshalElems (v :: w :: ws) =
        jsonMarshalStringChars v ++ ',' :: marshalElems (w :: ws) from rfl]
      rw [List.append_assoc, List.cons_append]
      rw [parseJElemsAux, parseJElem_marshal v (',' :: (marshalElems (w :: ws) ++ ']' :: tail))]
      dsimp only
      obtain ⟨t', ht'⟩ := marshalElems_cons_head w ws
      rw [skipWS_cons_of_not_space ',' _ rfl]
      have hsk : skipWS (marshalElems (w :: ws) ++ ']' :: tail) =
          marshalElems (w :: ws) ++ ']' :: tail := by
        rw [ht', List.cons_append]
        exact skipWS_cons_of_not_space '"' _ rfl
      simp only [hsk]
      rw [ih f tail (by simp) (by simp only [List.length_cons] at hf ⊢; omega)]
      rfl

lemma stringMk_data (s : String) : String.mk s.data = s := rfl

lemma core_marshal (vs : List String) :
    parseJSONStringArrayCore (('[' :: marshalElems vs) ++ [']']) =
      some (vs.map String.data, []) := by
  cases vs with
  | nil => decide
  | cons v vs =>
    rw [List.cons_append, parseJSONStringArrayCore, skipWS_cons_of_not_space '[' _ rfl]
    show (match skipWS (marshalElems (v :: vs) ++ [']']) with
      | ']' :: rest2 => some ([], rest2)
      | rest2 => parseJElemsAux (rest2.length + 1) rest2) =
      some (List.map String.data (v :: vs), [])
    obtain ⟨t', ht'⟩ := marshalElems_cons_head v vs
    have hsk : skipWS (marshalElems (v :: vs) ++ [']']) = '"' :: (t' ++ [']']) := by
      rw [ht', List.cons_append]
      exact skipWS_cons_of_not_space '"' _ rfl
    rw [hsk]
    show parseJElemsAux (('"' :: (t' ++ [']'])).length + 1) ('"' :: (t' ++ [']'])) =
      some (List.map String.data (v :: vs), [])
    rw [← List.cons_append, ← ht']
    have hlen : (v :: vs).length ≤ (marshalElems (v :: vs) ++ [']'] : List Char).length + 1 := by
      have := marshalElems_length (v :: vs)
      simp only [List.length_append]
      omega
    exact parseJElemsAux_marshal (v :: vs)
      ((marshalElems (v :: vs) ++ [']'] : List Char).length + 1) [] (by simp) hlen

lemma jsonUnmarshal_marshal (vs : List String) :
    jsonUnmarshalStringArray (jsonMarshalStringList vs) = some vs := by
  rw [jsonUnmarshalStringArray]
  rw [show (jsonMarshalStringList vs).data = ('[' :: marshalElems vs) ++ [']'] from rfl]
  rw [core_marshal vs]
  have hcomp : ((fun l => String.mk l) ∘ String.data) = id := funext fun s => rfl
  simp [skipWS, List.map_map, hcomp]

lemma trimmedStartsWithBracket_marshal (vs : List String) :
    trimmedStartsWithBracket (jsonMarshalStringList vs) = true := rfl

lemma parseValue_marshal (vs : List String) :
    maybeJSONStringToArray (jsonMarshalStringList vs) = vs := by
  rw [maybeJSONStringToArray, if_pos (trimmedStartsWithBracket_marshal vs),
    jsonUnmarshal_marshal vs]

/-- Claim C4 counterexample: the round trip is not lossless as claimed.  In map
mode a single-valued attribute whose value is itself `"[]"` is stored as-is
but parses back to the empty list; in set mode a duplicated value collapses,
so the original two-element value list cannot be reproduced. -/
theorem declared_roundtrip_counterexample :
    ((MapShaped.readAttributes "dc=example" [⟨"description", ["[]"]⟩] []).map
        (fun p => (p.1, maybeJSONStringToArray p.2)) ≠
      declaredProjection "dc=example" [⟨"description", ["[]"]⟩] []) ∧
    (SetShaped.allValuesForName "mail"
        (SetShaped.readAttributes "dc=example" [⟨"mail", ["a", "a"]⟩])).card ≠
      (["a", "a"] : List String).length := by decide

/-- Claim C4 (amended): the conversions round-trip with the provisos the
counterexample forces: in map mode, provided no kept single-valued
attribute's value itself parses as a JSON array (`parseValue v = [v]`);
in set mode the reproduction is of the name-to-value-set mapping (duplicate
values collapse and order is not represented). -/
theorem declared_roundtrip_amended :
    (∀ (dn : String) (attrs : List EntryAttribute) (skips : List String),
      (∀ a ∈ attrs, ("objectClass" :: skips).contains a.name = false →
        isRDNAttr dn a = false → ∀ v ∈ a.values, a.values = [v] →
          maybeJSONStringToArray v = [v]) →
      (MapShaped.readAttributes dn attrs skips).map
          (fun p => (p.1, maybeJSONStringToArray p.2)) =
        declaredProjection dn attrs skips) ∧
    (∀ (dn : String) (attrs : List EntryAttribute) (q : String × String),
      q ∈ SetShaped.readAttributes dn attrs ↔
        ∃ a ∈ attrs, a.name ≠ "objectClass" ∧ isRDNAttr dn a = false ∧
          q.1 = a.name ∧ q.2 ∈ a.values) ∧
    (∀ (dn : String) (attrs : List EntryAttribute),
      (attrs.map EntryAttribute.name).Nodup →
      ∀ a ∈ attrs, a.name ≠ "objectClass" → isRDNAttr dn a = false →
        SetShaped.allValuesForName a.name (SetShaped.readAttributes dn attrs) =
          a.values.toFinset) := by
  refine ⟨?_, ?_, ?_⟩
  · intro dn attrs skips hsv
    induction attrs with
    | nil => rfl
    | cons a as ih =>
      have ihs := ih (fun a' h => hsv a' (List.mem_cons_of_mem _ h))
      by_cases h1 : ("objectClass" :: skips).contains a.name = true
      · have h1p : a.name = "objectClass" ∨ a.name ∈ skips := by simpa using h1
        have hL : MapShaped.readAttributes dn (a :: as) skips =
            MapShaped.readAttributes dn as skips := by
          simp [MapShaped.readAttributes, List.filterMap_cons, h1p]
        have hR : declaredProjection dn (a :: as) skips =
            declaredProjection dn as skips := by
          simp [declaredProjection, List.filterMap_cons, h1p]
        rw [hL, hR]
        exact ihs
      · have h1p : ¬(a.name = "objectClass" ∨ a.name ∈ skips) := by simpa using h1
        by_cases h2 : isRDNAttr dn a = true
        · have hL : MapShaped.readAttributes dn (a :: as) skips =
              MapShaped.readAttributes dn as skips := by
            simp [MapShaped.readAttributes, List.filterMap_cons, h1p, h2]
          have hR : declaredProjection dn (a :: as) skips =
              declaredProjection dn as skips := by
            simp [declaredProjection, List.filterMap_cons, h1p, h2]
          rw [hL, hR]
          exact ihs
        · have hR : declaredProjection dn (a :: as) skips =
              (a.name, a.values) :: declaredProjection dn as skips := by
            simp [declaredProjection, List.filterMap_cons, h1p, h2]
          rcases hv : a.values with _ | ⟨v, _ | ⟨v2, vt⟩⟩
          · have hL : MapShaped.readAttributes dn (a :: as) skips =
                (a.name, jsonMarshalStringList []) :: MapShaped.readAttributes dn as skips := by
              simp [MapShaped.readAttributes, List.filterMap_cons, h1p, h2, hv]
            rw [hL, hR, List.map_cons, ihs, parseValue_marshal, hv]
          · have hL : MapShaped.readAttributes dn (a :: as) skips =
                (a.name, v) :: MapShaped.readAttributes dn as skips := by
              simp [MapShaped.readAttributes, List.filterMap_cons, h1p, h2, hv]
            have hpv : maybeJSONStringToArray v = [v] :=
              hsv a (List.mem_cons_self a as) (by simpa using h1) (by simpa using h2) v
                (by rw [hv]; exact List.mem_singleton_self v) hv
            rw [hL, hR, List.map_cons, ihs, hpv, hv]
          · have hL : MapShaped.readAttributes dn (a :: as) skips =
                (a.name, jsonMarshalStringList (v :: v2 :: vt)) ::
                  MapShaped.readAttributes dn as skips := by
              simp [MapShaped.readAttributes, List.filterMap_cons, h1p, h2, hv]
            rw [hL, hR, List.map_cons, ihs, parseValue_marshal, hv]
  · intro dn attrs q
    exact mem_readAttributes_set
  · intro dn attrs hnd a ha hoc hrdn
    ext v
    simp only [SetShaped.allValuesForName, Finset.mem_image, Finset.mem_filter,
      List.mem_toFinset]
    constructor
    · rintro ⟨⟨x, y⟩, ⟨hmem, hx⟩, hy⟩
      obtain ⟨a', ha', _, _, hfst, hval⟩ := mem_readAttributes_set.mp hmem
      have ha'a : a' = a := by
        refine List.inj_on_of_nodup_map hnd ha' ha ?_
        rw [← hfst]
        exact hx.symm ▸ rfl
      rw [ha'a] at hval
      rw [← hy]
      exact hval
    · intro hval
      exact ⟨(a.name, v),
        ⟨mem_readAttributes_set.mpr ⟨a, ha, hoc, hrdn, rfl, hval⟩, rfl⟩, rfl⟩

/-- Witness for the amended C4 at a concrete entry. -/
theorem declared_roundtrip_amended_witness :
    (MapShaped.readAttributes "ou=x,dc=y" [⟨"mail", ["a", "b"]⟩, ⟨"cn", ["z"]⟩] []).map
        (fun p => (p.1, maybeJSONStringToArray p.2)) =
      declaredProjection "ou=x,dc=y" [⟨"mail", ["a", "b"]⟩, ⟨"cn", ["z"]⟩] [] ∧
    SetShaped.allValuesForName "mail"
        (SetShaped.readAttributes "ou=x,dc=y" [⟨"mail", ["a", "b"]⟩, ⟨"cn", ["z"]⟩]) =
      (["a", "b"] : List String).toFinset :=
  ⟨declared_roundtrip_amended.1 "ou=x,dc=y" [⟨"mail", ["a", "b"]⟩, ⟨"cn", ["z"]⟩] []
      (by decide),
   declared_roundtrip_amended.2.2 "ou=x,dc=y" [⟨"mail", ["a", "b"]⟩, ⟨"cn", ["z"]⟩]
      (by decide) ⟨"mail", ["a", "b"]⟩ (by decide) (by decide) (by decide)⟩
